import Mathlib

/-!
Shallow embedding of the `lsmoura/cache` HTTP response cache.

The Go sources embedded here: `cache.go` (the `Cache` engine: `read`,
`write`, `store`, `key`, `Do`), the entry model (`cacheEntry`,
`asHttpResponse`, `expired`), the context override flags
(`IgnoreExpired`, `IgnoreCache`, `OnlyCached`), `DefaultKeyGenerator`,
and the error sentinels from `err.go`.

Modelling choices, each noted at its definition:
  * byte strings are lists of naturals; Go maps are association lists
    looked up by first match (a Go map binds each key at most once);
  * the storage provider and the HTTP transport are abstract state
    machines, so theorems quantify over every possible backend;
  * external standard-library collaborators (`time.Now`, `time.Parse`
    with the RFC1123 layout, `encoding/json` marshalling of entries) are
    collected in an abstract `Env`;
  * besides its result, each engine operation also reports the list of
    provider/transport operations it performed (`Ev`), which only
    instruments the control flow and lets theorems speak about call
    counts, skipped reads and the TTL hint handed to the provider.
-/

namespace LsmouraCache

/-- Go `[]byte`, modelled as a list of naturals. -/
abbrev Bytes := List Nat

/-- A Go `map[string]string`, modelled as an association list whose
lookup takes the first match (a Go map binds each key at most once). -/
abbrev HeaderMap := List (String × String)

/-- Go map indexing `m[k]` with its `ok` flag: the first value bound to
`k`, if any. -/
def lookupHeader : HeaderMap → String → Option String
  | [], _ => none
  | (k, v) :: rest, key => if k = key then some v else lookupHeader rest key

/-- Drop every binding of `key` (helper for map assignment). -/
def removeHeader : HeaderMap → String → HeaderMap
  | [], _ => []
  | (k, v) :: rest, key =>
    if k = key then removeHeader rest key else (k, v) :: removeHeader rest key

/-- Go map assignment `m[k] = v` (also `http.Header.Set`, whose header
names are already canonical at every call site in `cache.go`): bind `key`
to `val`, dropping any previous binding. -/
def setHeader (hs : HeaderMap) (key val : String) : HeaderMap :=
  (key, val) :: removeHeader hs key

/-- `cacheEntry`: the serialized record for one cached response. `Ts` is
a `time.Time`, modelled as an abstract instant (a natural tick count). -/
structure CacheEntry where
  Ts : Nat
  StatusCode : Nat
  Data : Bytes
  Headers : HeaderMap
deriving DecidableEq, Repr

/-- The external standard-library collaborators of the engine, modelled
abstractly: `now` is `time.Now()`, `parseTime` is
`time.Parse(time.RFC1123, _)` (`none` on a parse error), and
`marshal`/`unmarshal` are `json.Marshal`/`json.Unmarshal` for
`cacheEntry` (`unmarshal` is `none` on a deserialization error;
`json.Marshal` cannot fail on a `cacheEntry`, so `marshal` is total). -/
structure Env where
  now : Nat
  parseTime : String → Option Nat
  marshal : CacheEntry → Bytes
  unmarshal : Bytes → Option CacheEntry

/-- `cacheEntry.expired`: an entry with no `Expires` header, or whose
`Expires` value fails to parse, is expired; otherwise it is expired
exactly when the parsed instant is before now (`expires.Before(time.Now())`). -/
def CacheEntry.expired (env : Env) (e : CacheEntry) : Bool :=
  match lookupHeader e.Headers "Expires" with
  | none => true
  | some expiry =>
    match env.parseTime expiry with
    | none => true
    | some expires => decide (expires < env.now)

/-- The three per-request override flags carried on the request context.
Each accessor (`IgnoreExpired`, `IgnoreCache`, `OnlyCached`) defaults to
`false` when the flag was never set, so the flags are plain booleans. -/
structure Ctx where
  ignoreExpired : Bool
  ignoreCache : Bool
  onlyCached : Bool
deriving DecidableEq, Repr

/-- The context with no override flag set. -/
def Ctx.none : Ctx := ⟨false, false, false⟩

/-- `http.Request`, reduced to the fields `cache.go` consults: method,
URL (as its string), header map and context. -/
structure Request where
  method : String
  url : String
  header : HeaderMap
  ctx : Ctx
deriving DecidableEq, Repr

/-- `http.Response`, reduced to the fields `cache.go` touches. `request`
is the `Request` field of the response, `body` the (fully read) body. -/
structure Response where
  statusCode : Nat
  header : HeaderMap
  body : Bytes
  contentLength : Int
  request : Option Request
deriving DecidableEq, Repr

/-- `cacheEntry.asHttpResponse`: rebuild a transport-shaped response from
a stored entry. The Go code turns each stored single-valued header into a
one-element slice; with single-valued headers the map carries over. -/
def CacheEntry.asHttpResponse (e : CacheEntry) (req : Request) : Response where
  statusCode := e.StatusCode
  header := e.Headers
  body := e.Data
  contentLength := Int.ofNat e.Data.length
  request := some req

/-- Go `error` values as the engine distinguishes them: the sentinels of
`err.go`, errors built from a string (`errors.New`, or an error produced
by an external provider/transport), and `fmt.Errorf("label: %w", inner)`
wrapping. `errors.Is` checks in `Do` compare against unwrapped sentinels,
so they are constructor matches here. -/
inductive GoError where
  | errStr (msg : String)
  | cacheExpired
  | cacheExpiryIgnored
  | cacheMiss
  | wrapped (label : String) (inner : GoError)
deriving DecidableEq, Repr

/-- One observable call the engine makes on its collaborators: a
`Provider.Get`, a `Provider.Set` (with the bytes and the TTL hint passed),
or a transport dispatch (with the request as dispatched). -/
inductive Ev where
  | getOp (key : String)
  | setOp (key : String) (value : Bytes) (ttl : Nat)
  | sendOp (req : Request)
deriving DecidableEq, Repr

/-- The dispatched requests of a trace, in order: the transport call count
is the length of this list. -/
def sends (evs : List Ev) : List Request :=
  evs.filterMap fun e =>
    match e with
    | .sendOp r => some r
    | _ => none

/-- True when the trace contains a `Provider.Get` call. -/
def hasGet (evs : List Ev) : Bool :=
  evs.any fun e =>
    match e with
    | .getOp _ => true
    | _ => false

/-- True when the trace contains a `Provider.Set` call. -/
def hasSet (evs : List Ev) : Bool :=
  evs.any fun e =>
    match e with
    | .setOp _ _ _ => true
    | _ => false

/-- The `Provider` interface: an abstract state machine over states `σ`.
`get` returns the stored bytes (`[]`, Go `nil`, when the key is absent) or
a communication error; `set` persists bytes under a key with a TTL hint. -/
structure Provider (σ : Type) where
  get : σ → String → Except String (Bytes × σ)
  set : σ → String → Bytes → Nat → Except String σ

/-- The `HttpRequester` interface (the transport): an abstract state
machine over states `τ`; `doReq` is its `Do` method. -/
structure Transport (τ : Type) where
  doReq : τ → Request → Except String (Response × τ)

/-- The `Cache` struct: an optional key generator (default when `none`),
the storage provider and the HTTP client. `httpClient` stands for the
result of the Go `httpClient()` accessor (the configured client, or
`http.DefaultClient` when none was set). -/
structure CacheM (σ τ : Type) where
  keyGenerator : Option (Request → String)
  provider : Provider σ
  httpClient : Transport τ

/-- `DefaultKeyGenerator`: the request URL string. -/
def DefaultKeyGenerator (req : Request) : String := req.url

/-- `Cache.key`: the configured key generator, or the default. -/
def CacheM.key (c : CacheM σ τ) (req : Request) : String :=
  match c.keyGenerator with
  | none => DefaultKeyGenerator req
  | some g => g req

/-- The outcome of `Cache.read`: the entry (if one was obtained), the Go
error value returned alongside it, the provider state afterwards, and the
calls performed. -/
structure ReadOut (σ : Type) where
  entry : Option CacheEntry
  err : Option GoError
  prov : σ
  evs : List Ev
deriving Repr

/-- `Cache.read`: fetch and deserialize the entry for a key. Absent bytes
(`len == 0`) and bytes that fail to deserialize both yield no entry and no
error (the unmarshal failure is only printed); an expired entry is
returned together with `ErrCacheExpiryIgnored` (when the context ignores
expiry) or `ErrCacheExpired`; a fresh entry is returned with no error. -/
def CacheM.read (env : Env) (c : CacheM σ τ) (s : σ) (ctx : Ctx)
    (key : String) : ReadOut σ :=
  match c.provider.get s key with
  | .error e => ⟨none, some (.wrapped "provider.Get(): " (.errStr e)), s, [.getOp key]⟩
  | .ok (value, s1) =>
    if value.length = 0 then
      ⟨none, none, s1, [.getOp key]⟩
    else
      match env.unmarshal value with
      | none => ⟨none, none, s1, [.getOp key]⟩
      | some entry =>
        if entry.expired env then
          if ctx.ignoreExpired then
            ⟨some entry, some .cacheExpiryIgnored, s1, [.getOp key]⟩
          else
            ⟨some entry, some .cacheExpired, s1, [.getOp key]⟩
        else
          ⟨some entry, none, s1, [.getOp key]⟩

/-- `Cache.write`: marshal the entry and hand it to `Provider.Set` with a
TTL hint of `0`. On a provider failure the state is left as it was (the
provider reported nothing newer). -/
def CacheM.write (env : Env) (c : CacheM σ τ) (s : σ) (key : String)
    (entry : CacheEntry) : Except GoError σ × List Ev :=
  let dataBytes := env.marshal entry
  match c.provider.set s key dataBytes 0 with
  | .error e => (.error (.wrapped "provider.Set(): " (.errStr e)), [.setOp key dataBytes 0])
  | .ok s1 => (.ok s1, [.setOp key dataBytes 0])

/-- The entry `Cache.store` builds from a fetched response: captured now,
with the response status, the fully read body, and the response headers
collapsed to one value per name (single-valued already in this model). -/
def entryOfResponse (env : Env) (resp : Response) : CacheEntry where
  Ts := env.now
  StatusCode := resp.statusCode
  Data := resp.body
  Headers := resp.header

/-- `Cache.store`: read the response body (always succeeds on the
in-memory bodies of this model), build a new entry and persist it. -/
def CacheM.store (env : Env) (c : CacheM σ τ) (s : σ) (key : String)
    (resp : Response) : Except GoError (CacheEntry × σ) × List Ev :=
  let e := entryOfResponse env resp
  match CacheM.write env c s key e with
  | (.error err, evs) => (.error (.wrapped "r.write(): " err), evs)
  | (.ok s1, evs) => (.ok (e, s1), evs)

/-- The conditional-revalidation step of `Do`: when an entry was carried
forward and has a non-empty `ETag` header value, set `If-None-Match` on
the outbound request (Go mutates `req` in place; here the updated request
is returned). -/
def condRequest (req : Request) (entry : Option CacheEntry) : Request :=
  match entry with
  | none => req
  | some e =>
    match lookupHeader e.Headers "ETag" with
    | none => req
    | some etag =>
      if etag ≠ "" then
        { req with header := setHeader req.header "If-None-Match" etag }
      else
        req

/-- The outcome of `Cache.Do`: the returned response or error, the
provider state, the transport state, and the calls performed. -/
structure DoOut (σ τ : Type) where
  result : Except GoError Response
  prov : σ
  client : τ
  evs : List Ev
deriving Repr

/-- The tail of `Do` after the `OnlyCached` check: attach the conditional
header, dispatch, and reconcile. A `304` requires a carried-forward entry
(else `errors.New("no cached entry to return")`); its freshness headers
are copied onto the response, the entry is re-persisted (a failure there
is only logged) and the stored bytes become the body. Any other status is
stored as a new entry and returned reconstructed from it. -/
def CacheM.fetchPhase (env : Env) (c : CacheM σ τ) (s : σ) (t : τ)
    (req : Request) (key : String) (entry : Option CacheEntry) : DoOut σ τ :=
  let req1 := condRequest req entry
  match c.httpClient.doReq t req1 with
  | .error e => ⟨.error (.wrapped "http.Do(): " (.errStr e)), s, t, [.sendOp req1]⟩
  | .ok (resp, t1) =>
    if resp.statusCode = 304 then
      match entry with
      | none => ⟨.error (.errStr "no cached entry to return"), s, t1, [.sendOp req1]⟩
      | some e =>
        let resp1 :=
          match lookupHeader e.Headers "Expires" with
          | some expires => { resp with header := setHeader resp.header "Expires" expires }
          | none => resp
        let resp2 :=
          match lookupHeader e.Headers "Last-Modified" with
          | some lm => { resp1 with header := setHeader resp1.header "Last-Modified" lm }
          | none => resp1
        let ws := CacheM.write env c s key e
        let s1 := match ws.1 with
          | .ok s1 => s1
          | .error _ => s
        ⟨.ok { resp2 with body := e.Data }, s1, t1, .sendOp req1 :: ws.2⟩
    else
      match CacheM.store env c s key resp with
      | (.error err, evs) => ⟨.error (.wrapped "r.store(): " err), s, t1, .sendOp req1 :: evs⟩
      | (.ok (e, s1), evs) => ⟨.ok (e.asHttpResponse req1), s1, t1, .sendOp req1 :: evs⟩

/-- The `OnlyCached` gate of `Do` followed by the fetch: with the flag
set, a missing entry is `ErrCacheMiss` and an obtained one is returned
reconstructed, with no transport call either way. -/
def CacheM.afterRead (env : Env) (c : CacheM σ τ) (s : σ) (t : τ)
    (req : Request) (key : String) (entry : Option CacheEntry) : DoOut σ τ :=
  if req.ctx.onlyCached then
    match entry with
    | none => ⟨.error .cacheMiss, s, t, []⟩
    | some e => ⟨.ok (e.asHttpResponse req), s, t, []⟩
  else
    CacheM.fetchPhase env c s t req key entry

/-- `Cache.Do`: the caching decision engine. A non-GET request goes
straight to the transport. For GET: derive the key; skip the read under
`IgnoreCache`, else read — a fresh entry returns at once (hit), an
expiry-ignored entry returns at once, an expired entry is carried
forward, any other read error is returned; then the `OnlyCached` gate and
the fetch/reconcile tail run. In the Go code an `ErrCacheExpiryIgnored`
always comes with an entry; the impossible entry-less case (which would
dereference nil in Go) is mapped to returning the sentinel itself. -/
def CacheM.Do (env : Env) (c : CacheM σ τ) (s : σ) (t : τ)
    (req : Request) : DoOut σ τ :=
  if req.method ≠ "GET" then
    match c.httpClient.doReq t req with
    | .error e => ⟨.error (.errStr e), s, t, [.sendOp req]⟩
    | .ok (resp, t1) => ⟨.ok resp, s, t1, [.sendOp req]⟩
  else
    let key := c.key req
    if req.ctx.ignoreCache then
      CacheM.afterRead env c s t req key none
    else
      let ro := CacheM.read env c s req.ctx key
      match ro.err, ro.entry with
      | some .cacheExpired, entry =>
        let out := CacheM.afterRead env c ro.prov t req key entry
        ⟨out.result, out.prov, out.client, ro.evs ++ out.evs⟩
      | some .cacheExpiryIgnored, some e =>
        ⟨.ok (e.asHttpResponse req), ro.prov, t, ro.evs⟩
      | some .cacheExpiryIgnored, none =>
        ⟨.error .cacheExpiryIgnored, ro.prov, t, ro.evs⟩
      | some err, _ => ⟨.error err, ro.prov, t, ro.evs⟩
      | none, some e => ⟨.ok (e.asHttpResponse req), ro.prov, t, ro.evs⟩
      | none, none =>
        let out := CacheM.afterRead env c ro.prov t req key none
        ⟨out.result, out.prov, out.client, ro.evs ++ out.evs⟩

/-! ### Concrete instances used by witnesses and counterexamples -/

/-- A concrete fresh entry: expires at instant 100 (now is 50). -/
def entryFreshW : CacheEntry := ⟨0, 200, [72, 105], [("Expires", "T100"), ("ETag", "\"e1\"")]⟩

/-- A concrete expired entry: expires at instant 10 (now is 50). -/
def entryExpW : CacheEntry := ⟨0, 200, [72, 105], [("Expires", "T10"), ("ETag", "\"e1\"")]⟩

/-- A concrete environment: now is instant 50; the time format recognises
the two timestamps of the sample entries; the codec maps `[1]` to the
fresh entry and `[2]` to the expired one (anything else is malformed). -/
def envW : Env where
  now := 50
  parseTime := fun s => if s = "T100" then some 100 else if s = "T10" then some 10 else none
  marshal := fun e => if e = entryExpW then [2] else [1]
  unmarshal := fun bs => if bs = [1] then some entryFreshW else if bs = [2] then some entryExpW else none

/-- A provider holding the given bytes under every key; its state counts
`Get` calls, and a `Set` adds 100. -/
def constProv (bs : Bytes) : Provider Nat where
  get := fun s _ => .ok (bs, s + 1)
  set := fun s _ _ _ => .ok (s + 100)

/-- A provider holding the given bytes whose `Set` always fails. -/
def failSetProv (bs : Bytes) : Provider Nat where
  get := fun s _ => .ok (bs, s + 1)
  set := fun _ _ _ _ => .error "set failed"

/-- A transport always answering with the given response; its state
counts dispatches. -/
def transOf (resp : Response) : Transport Nat where
  doReq := fun n _ => .ok (resp, n + 1)

/-- A concrete 200 response carrying a fresh `Expires` header. -/
def respOkW : Response := ⟨200, [("Expires", "T100")], [66], 1, none⟩

/-- A concrete 304 response (empty body) with a server `Expires` value the
entry's stored one must overwrite. -/
def resp304W : Response := ⟨304, [("Expires", "srv"), ("Other", "y")], [], 0, none⟩

/-- A GET request for the sample URL with the given flags. -/
def reqW (ctx : Ctx) : Request := ⟨"GET", "http://example.com/", [], ctx⟩

/-- A cache with the default key generator over the given collaborators. -/
def cacheW (p : Provider Nat) (tr : Transport Nat) : CacheM Nat Nat := ⟨none, p, tr⟩

/-! ### Helper lemmas about `read` -/

theorem read_fresh (env : Env) {σ τ : Type} (c : CacheM σ τ) (s s1 : σ)
    (ctx : Ctx) (key : String) (v : Bytes) (e : CacheEntry)
    (hget : c.provider.get s key = .ok (v, s1)) (hne : v ≠ [])
    (hun : env.unmarshal v = some e) (hfresh : e.expired env = false) :
    CacheM.read env c s ctx key = ⟨some e, none, s1, [.getOp key]⟩ := by
  unfold CacheM.read
  rw [hget]
  simp [List.length_eq_zero, hne, hun, hfresh]

theorem read_expired (env : Env) {σ τ : Type} (c : CacheM σ τ) (s s1 : σ)
    (ctx : Ctx) (key : String) (v : Bytes) (e : CacheEntry)
    (hget : c.provider.get s key = .ok (v, s1)) (hne : v ≠ [])
    (hun : env.unmarshal v = some e) (hexp : e.expired env = true)
    (hie : ctx.ignoreExpired = false) :
    CacheM.read env c s ctx key = ⟨some e, some .cacheExpired, s1, [.getOp key]⟩ := by
  unfold CacheM.read
  rw [hget]
  simp [List.length_eq_zero, hne, hun, hexp, hie]

theorem read_ignored_expiry (env : Env) {σ τ : Type} (c : CacheM σ τ) (s s1 : σ)
    (ctx : Ctx) (key : String) (v : Bytes) (e : CacheEntry)
    (hget : c.provider.get s key = .ok (v, s1)) (hne : v ≠ [])
    (hun : env.unmarshal v = some e) (hexp : e.expired env = true)
    (hie : ctx.ignoreExpired = true) :
    CacheM.read env c s ctx key = ⟨some e, some .cacheExpiryIgnored, s1, [.getOp key]⟩ := by
  unfold CacheM.read
  rw [hget]
  simp [List.length_eq_zero, hne, hun, hexp, hie]

theorem read_absent (env : Env) {σ τ : Type} (c : CacheM σ τ) (s s1 : σ)
    (ctx : Ctx) (key : String)
    (hget : c.provider.get s key = .ok ([], s1)) :
    CacheM.read env c s ctx key = ⟨none, none, s1, [.getOp key]⟩ := by
  unfold CacheM.read
  rw [hget]
  simp

theorem read_malformed (env : Env) {σ τ : Type} (c : CacheM σ τ) (s s1 : σ)
    (ctx : Ctx) (key : String) (v : Bytes)
    (hget : c.provider.get s key = .ok (v, s1)) (hne : v ≠ [])
    (hun : env.unmarshal v = none) :
    CacheM.read env c s ctx key = ⟨none, none, s1, [.getOp key]⟩ := by
  unfold CacheM.read
  rw [hget]
  simp [List.length_eq_zero, hne, hun]

/-! ### Header map lemmas -/

theorem lookup_setHeader_self (hs : HeaderMap) (key val : String) :
    lookupHeader (setHeader hs key val) key = some val := by
  unfold setHeader lookupHeader
  simp

theorem lookup_removeHeader_other (hs : HeaderMap) (key k : String)
    (h : k ≠ key) : lookupHeader (removeHeader hs key) k = lookupHeader hs k := by
  have hk2 : ¬(key = k) := fun hc => h hc.symm
  induction hs with
  | nil => rfl
  | cons p rest ih =>
    obtain ⟨pk, pv⟩ := p
    by_cases hp : pk = key
    · subst hp
      simp [removeHeader, lookupHeader, hk2, ih]
    · by_cases hk : pk = k
      · simp [removeHeader, lookupHeader, hp, hk, h]
      · simp [removeHeader, lookupHeader, hp, hk, ih]

theorem lookup_setHeader_other (hs : HeaderMap) (key val k : String)
    (h : k ≠ key) :
    lookupHeader (setHeader hs key val) k = lookupHeader hs k := by
  have hk2 : ¬(key = k) := fun hc => h hc.symm
  simp [setHeader, lookupHeader, hk2, lookup_removeHeader_other hs key k h]

/-! ### Trace lemmas -/

theorem read_evs (env : Env) {σ τ : Type} (c : CacheM σ τ) (s : σ)
    (ctx : Ctx) (key : String) :
    (CacheM.read env c s ctx key).evs = [.getOp key] := by
  unfold CacheM.read
  rcases c.provider.get s key with e | ⟨v, s1⟩
  · rfl
  · dsimp only
    split
    · rfl
    · split
      · rfl
      · split
        · split <;> rfl
        · rfl

theorem write_evs (env : Env) {σ τ : Type} (c : CacheM σ τ) (s : σ)
    (key : String) (e : CacheEntry) :
    (CacheM.write env c s key e).2 = [.setOp key (env.marshal e) 0] := by
  unfold CacheM.write
  dsimp only
  split <;> rfl

theorem store_evs (env : Env) {σ τ : Type} (c : CacheM σ τ) (s : σ)
    (key : String) (resp : Response) :
    (CacheM.store env c s key resp).2 =
      [.setOp key (env.marshal (entryOfResponse env resp)) 0] := by
  unfold CacheM.store
  dsimp only
  rcases hw : CacheM.write env c s key (entryOfResponse env resp) with ⟨res, evs⟩
  have hevs : evs = [.setOp key (env.marshal (entryOfResponse env resp)) 0] := by
    have := write_evs env c s key (entryOfResponse env resp)
    rw [hw] at this
    exact this
  rcases res with err | s1 <;> simp [hevs]

theorem fetchPhase_evs (env : Env) {σ τ : Type} (c : CacheM σ τ) (s : σ)
    (t : τ) (req : Request) (key : String) (entry : Option CacheEntry) :
    ∃ setEvs, (CacheM.fetchPhase env c s t req key entry).evs =
        .sendOp (condRequest req entry) :: setEvs ∧
      ∀ ev ∈ setEvs, ∃ k v, ev = Ev.setOp k v 0 := by
  simp only [CacheM.fetchPhase]
  rcases c.httpClient.doReq t (condRequest req entry) with e | ⟨resp, t1⟩
  · exact ⟨[], rfl, by intro ev h; cases h⟩
  · dsimp only
    split
    · rcases entry with _ | e
      · exact ⟨[], rfl, by intro ev h; cases h⟩
      · refine ⟨(CacheM.write env c s key e).2, rfl, ?_⟩
        rw [write_evs]
        intro ev h
        rw [List.mem_singleton] at h
        exact ⟨key, env.marshal e, h⟩
    · rcases hs : CacheM.store env c s key resp with ⟨res, evs⟩
      have hevs : evs = [.setOp key (env.marshal (entryOfResponse env resp)) 0] := by
        have := store_evs env c s key resp
        rw [hs] at this
        exact this
      rcases res with err | p <;>
        exact ⟨evs, rfl, by
          rw [hevs]
          intro ev h
          rw [List.mem_singleton] at h
          exact ⟨_, _, h⟩⟩

theorem sends_setOps (evs : List Ev)
    (h : ∀ ev ∈ evs, ∃ k v, ev = Ev.setOp k v 0) : sends evs = [] := by
  induction evs with
  | nil => rfl
  | cons a rest ih =>
    obtain ⟨k, v, rfl⟩ := h a (List.mem_cons_self a rest)
    have := ih (fun ev hev => h ev (List.mem_cons_of_mem _ hev))
    simpa [sends, List.filterMap_cons] using this

theorem hasGet_setOps (evs : List Ev)
    (h : ∀ ev ∈ evs, ∃ k v, ev = Ev.setOp k v 0) : hasGet evs = false := by
  induction evs with
  | nil => rfl
  | cons a rest ih =>
    obtain ⟨k, v, rfl⟩ := h a (List.mem_cons_self a rest)
    have := ih (fun ev hev => h ev (List.mem_cons_of_mem _ hev))
    simpa [hasGet, List.any_cons] using this

theorem ttl_setOps (evs : List Ev)
    (h : ∀ ev ∈ evs, ∃ k v, ev = Ev.setOp k v 0)
    (k : String) (v : Bytes) (ttl : Nat) (hmem : Ev.setOp k v ttl ∈ evs) :
    ttl = 0 := by
  obtain ⟨k2, v2, heq⟩ := h _ hmem
  simp only [Ev.setOp.injEq] at heq
  exact heq.2.2

theorem sends_fetchPhase (env : Env) {σ τ : Type} (c : CacheM σ τ) (s : σ)
    (t : τ) (req : Request) (key : String) (entry : Option CacheEntry) :
    sends (CacheM.fetchPhase env c s t req key entry).evs =
      [condRequest req entry] := by
  obtain ⟨setEvs, hevs, hset⟩ := fetchPhase_evs env c s t req key entry
  rw [hevs]
  have h0 := sends_setOps setEvs hset
  simp only [sends, List.filterMap_cons] at h0 ⊢
  rw [h0]

theorem sends_append (a b : List Ev) : sends (a ++ b) = sends a ++ sends b := by
  unfold sends
  exact List.filterMap_append a b _

/-! ### Claim theorems -/

/-- C1: a GET request with no override flags whose derived key holds a
stored fresh entry is answered by a response reconstructed from that
entry (same status code, same body bytes), with no transport call and the
transport state untouched — so repeated such calls never increase the
transport call count. -/
theorem hit_returns_stored_without_fetch (env : Env) {σ τ : Type}
    (c : CacheM σ τ) (s : σ) (t : τ) (req : Request)
    (hm : req.method = "GET")
    ( _hie : req.ctx.ignoreExpired = false)
    (hic : req.ctx.ignoreCache = false)
    ( _hoc : req.ctx.onlyCached = false)
    (v : Bytes) (s1 : σ) (e : CacheEntry)
    (hget : c.provider.get s (c.key req) = .ok (v, s1))
    (hne : v ≠ [])
    (hun : env.unmarshal v = some e)
    (hfresh : e.expired env = false) :
    CacheM.Do env c s t req = ⟨.ok (e.asHttpResponse req), s1, t, [.getOp (c.key req)]⟩ ∧
    (e.asHttpResponse req).statusCode = e.StatusCode ∧
    (e.asHttpResponse req).body = e.Data ∧
    sends (CacheM.Do env c s t req).evs = [] := by
  have hro := read_fresh env c s s1 req.ctx (c.key req) v e hget hne hun hfresh
  have hdo : CacheM.Do env c s t req =
      ⟨.ok (e.asHttpResponse req), s1, t, [.getOp (c.key req)]⟩ := by
    unfold CacheM.Do
    simp [hm, hic, hro]
  refine ⟨hdo, rfl, rfl, ?_⟩
  rw [hdo]
  rfl

/-- Witness for C1 at the concrete sample: the fresh entry is served with
the transport untouched. -/
theorem hit_returns_stored_without_fetch_witness :
    CacheM.Do envW (cacheW (constProv [1]) (transOf respOkW)) 0 0 (reqW Ctx.none) =
      ⟨.ok (entryFreshW.asHttpResponse (reqW Ctx.none)), 1, 0, [.getOp "http://example.com/"]⟩ ∧
    (entryFreshW.asHttpResponse (reqW Ctx.none)).statusCode = entryFreshW.StatusCode ∧
    (entryFreshW.asHttpResponse (reqW Ctx.none)).body = entryFreshW.Data ∧
    sends (CacheM.Do envW (cacheW (constProv [1]) (transOf respOkW)) 0 0 (reqW Ctx.none)).evs = [] :=
  hit_returns_stored_without_fetch envW (cacheW (constProv [1]) (transOf respOkW)) 0 0
    (reqW Ctx.none) rfl rfl rfl rfl [1] 1 entryFreshW rfl (by decide) rfl rfl

/-- C7: freshness is computed solely from the entry's `Expires` header —
absent header or unparseable value means always expired (fail-closed);
otherwise the entry is expired exactly when the parsed instant is before
the current time. -/
theorem expired_fail_closed (env : Env) (e : CacheEntry) :
    (lookupHeader e.Headers "Expires" = none → e.expired env = true) ∧
    (∀ exp, lookupHeader e.Headers "Expires" = some exp →
      env.parseTime exp = none → e.expired env = true) ∧
    (∀ exp ts, lookupHeader e.Headers "Expires" = some exp →
      env.parseTime exp = some ts →
      (e.expired env = true ↔ ts < env.now)) := by
  refine ⟨fun h => ?_, fun exp h hp => ?_, fun exp ts h hp => ?_⟩
  · unfold CacheEntry.expired
    rw [h]
  · unfold CacheEntry.expired
    rw [h]
    dsimp only
    rw [hp]
  · unfold CacheEntry.expired
    rw [h]
    dsimp only
    rw [hp]
    exact decide_eq_true_iff

/-- Witness for C7 at the sample entries and environment: the expired
entry has a parseable `Expires` at instant 10, before now (50); an entry
with no `Expires` header and one with an unparseable value are expired. -/
theorem expired_fail_closed_witness :
    (CacheEntry.expired envW ⟨0, 200, [], []⟩ = true) ∧
    (CacheEntry.expired envW ⟨0, 200, [], [("Expires", "junk")]⟩ = true) ∧
    (CacheEntry.expired envW entryExpW = true ↔ 10 < envW.now) := by
  refine ⟨?_, ?_, ?_⟩
  · exact (expired_fail_closed envW ⟨0, 200, [], []⟩).1 rfl
  · exact (expired_fail_closed envW ⟨0, 200, [], [("Expires", "junk")]⟩).2.1 "junk" rfl rfl
  · exact (expired_fail_closed envW entryExpW).2.2 "T10" 10 rfl rfl

theorem read_shape (env : Env) {σ τ : Type} (c : CacheM σ τ) (s s1 : σ)
    (ctx : Ctx) (key : String) (v : Bytes)
    (hget : c.provider.get s key = .ok (v, s1)) :
    CacheM.read env c s ctx key = ⟨none, none, s1, [.getOp key]⟩ ∨
    (∃ e, CacheM.read env c s ctx key = ⟨some e, none, s1, [.getOp key]⟩) ∨
    (∃ e, CacheM.read env c s ctx key = ⟨some e, some .cacheExpired, s1, [.getOp key]⟩) ∨
    (∃ e, CacheM.read env c s ctx key = ⟨some e, some .cacheExpiryIgnored, s1, [.getOp key]⟩) := by
  by_cases hne : v = []
  · subst hne
    exact .inl (read_absent env c s s1 ctx key hget)
  · rcases hun : env.unmarshal v with _ | e
    · exact .inl (read_malformed env c s s1 ctx key v hget hne hun)
    · by_cases hexp : e.expired env = true
      · by_cases hie : ctx.ignoreExpired = true
        · exact .inr (.inr (.inr
            ⟨e, read_ignored_expiry env c s s1 ctx key v e hget hne hun hexp hie⟩))
        · exact .inr (.inr (.inl
            ⟨e, read_expired env c s s1 ctx key v e hget hne hun hexp
              (by simpa using hie)⟩))
      · exact .inr (.inl
          ⟨e, read_fresh env c s s1 ctx key v e hget hne hun (by simpa using hexp)⟩)

/-- C5: with `ignoreExpired` set and an expired entry stored under the
key, `Do` returns the expired entry's reconstructed response with no
transport call and no storage write (the trace is the single read); with
nothing stored at all, such a call still performs exactly one fetch. -/
theorem ignore_expired_serves_stale (env : Env) {σ τ : Type}
    (c : CacheM σ τ) (s : σ) (t : τ) (req : Request)
    (hm : req.method = "GET")
    (hie : req.ctx.ignoreExpired = true)
    (hic : req.ctx.ignoreCache = false) :
    (∀ v s1 e, c.provider.get s (c.key req) = .ok (v, s1) → v ≠ [] →
      env.unmarshal v = some e → e.expired env = true →
      CacheM.Do env c s t req =
        ⟨.ok (e.asHttpResponse req), s1, t, [.getOp (c.key req)]⟩) ∧
    (∀ s1, req.ctx.onlyCached = false →
      c.provider.get s (c.key req) = .ok ([], s1) →
      sends (CacheM.Do env c s t req).evs = [req]) := by
  constructor
  · intro v s1 e hget hne hun hexp
    have hro := read_ignored_expiry env c s s1 req.ctx (c.key req) v e hget hne hun hexp hie
    unfold CacheM.Do
    simp [hm, hic, hro]
  · intro s1 hoc hget
    have hro := read_absent env c s s1 req.ctx (c.key req) hget
    have hfp := sends_fetchPhase env c s1 t req (c.key req) none
    simp only [sends, condRequest] at hfp
    unfold CacheM.Do
    simp [hm, hic, hro, CacheM.afterRead, hoc, sends_append, sends, hfp]

/-- Witness for C5: the expired sample entry is served untouched under
`ignoreExpired`, and with an empty store the same flags still fetch. -/
theorem ignore_expired_serves_stale_witness :
    CacheM.Do envW (cacheW (constProv [2]) (transOf respOkW)) 0 0 (reqW ⟨true, false, false⟩) =
      ⟨.ok (entryExpW.asHttpResponse (reqW ⟨true, false, false⟩)), 1, 0,
        [.getOp "http://example.com/"]⟩ ∧
    sends (CacheM.Do envW (cacheW (constProv []) (transOf respOkW)) 0 0
      (reqW ⟨true, false, false⟩)).evs = [reqW ⟨true, false, false⟩] := by
  constructor
  · exact (ignore_expired_serves_stale envW (cacheW (constProv [2]) (transOf respOkW))
      0 0 (reqW ⟨true, false, false⟩) rfl rfl rfl).1 [2] 1 entryExpW rfl
      (by decide) rfl rfl
  · exact (ignore_expired_serves_stale envW (cacheW (constProv []) (transOf respOkW))
      0 0 (reqW ⟨true, false, false⟩) rfl rfl rfl).2 1 rfl rfl

/-- C9: stored bytes that fail to deserialize make `Do` behave exactly as
if the key held no entry — the whole run (result, states, trace) is the
one of the absent case — and the read surfaces no error. -/
theorem malformed_entry_like_miss (env : Env) {σ τ : Type}
    (c : CacheM σ τ) (sb sa s1 : σ) (t : τ) (req : Request) (v : Bytes)
    (hm : req.method = "GET") (hic : req.ctx.ignoreCache = false)
    (hgb : c.provider.get sb (c.key req) = .ok (v, s1)) (hne : v ≠ [])
    (hun : env.unmarshal v = none)
    (hga : c.provider.get sa (c.key req) = .ok ([], s1)) :
    CacheM.Do env c sb t req = CacheM.Do env c sa t req ∧
    (CacheM.read env c sb req.ctx (c.key req)).err = none := by
  have hb := read_malformed env c sb s1 req.ctx (c.key req) v hgb hne hun
  have ha := read_absent env c sa s1 req.ctx (c.key req) hga
  constructor
  · unfold CacheM.Do
    simp [hm, hic, hb, ha]
  · rw [hb]

/-- A provider for the C9 witness: state 7 holds undecodable bytes `[9]`,
any other state holds nothing; both reads land in state 0. -/
def flipProv : Provider Nat where
  get := fun s _ => if s = 7 then .ok ([9], 0) else .ok ([], 0)
  set := fun s _ _ _ => .ok (s + 100)

/-- Witness for C9: the run over the poisoned store equals the run over
the empty store, and the read reports no error. -/
theorem malformed_entry_like_miss_witness :
    CacheM.Do envW (cacheW flipProv (transOf respOkW)) 7 0 (reqW Ctx.none) =
      CacheM.Do envW (cacheW flipProv (transOf respOkW)) 0 0 (reqW Ctx.none) ∧
    (CacheM.read envW (cacheW flipProv (transOf respOkW)) 7 Ctx.none
      "http://example.com/").err = none :=
  malformed_entry_like_miss envW (cacheW flipProv (transOf respOkW)) 7 0 0 0
    (reqW Ctx.none) [9] rfl rfl rfl (by decide) rfl rfl

/-- C4: with `onlyCached` set (and a read that does not fail at the
provider), `Do` makes no transport call; when no usable entry was
obtained — absent from storage, or the read skipped by `ignoreCache` —
it returns `ErrCacheMiss`, and when an entry was obtained it returns that
entry's reconstructed response. -/
theorem only_cached_never_fetches (env : Env) {σ τ : Type}
    (c : CacheM σ τ) (s : σ) (t : τ) (req : Request)
    (hm : req.method = "GET")
    (hoc : req.ctx.onlyCached = true)
    (hok : req.ctx.ignoreCache = false →
      ∃ v s1, c.provider.get s (c.key req) = .ok (v, s1)) :
    (CacheM.Do env c s t req).client = t ∧
    sends (CacheM.Do env c s t req).evs = [] ∧
    (req.ctx.ignoreCache = true →
      CacheM.Do env c s t req = ⟨.error .cacheMiss, s, t, []⟩) ∧
    (req.ctx.ignoreCache = false →
      ((CacheM.read env c s req.ctx (c.key req)).entry = none →
        (CacheM.Do env c s t req).result = .error .cacheMiss) ∧
      ∀ e, (CacheM.read env c s req.ctx (c.key req)).entry = some e →
        (CacheM.Do env c s t req).result = .ok (e.asHttpResponse req)) := by
  by_cases hic : req.ctx.ignoreCache = true
  · have hdo : CacheM.Do env c s t req = ⟨.error .cacheMiss, s, t, []⟩ := by
      unfold CacheM.Do
      simp [hm, hic, CacheM.afterRead, hoc]
    refine ⟨?_, ?_, ?_, ?_⟩
    · rw [hdo]
    · rw [hdo]
      rfl
    · intro _
      exact hdo
    · intro hfalse
      rw [hfalse] at hic
      cases hic
  · have hicf : req.ctx.ignoreCache = false := by simpa using hic
    obtain ⟨v, s1, hget⟩ := hok hicf
    rcases read_shape env c s s1 req.ctx (c.key req) v hget with
      hro | ⟨e, hro⟩ | ⟨e, hro⟩ | ⟨e, hro⟩
    · have hdo : CacheM.Do env c s t req =
          ⟨.error .cacheMiss, s1, t, [.getOp (c.key req)]⟩ := by
        unfold CacheM.Do
        simp [hm, hicf, hro, CacheM.afterRead, hoc]
      refine ⟨?_, ?_, ?_, ?_⟩
      · rw [hdo]
      · rw [hdo]
        rfl
      · intro h
        rw [h] at hicf
        cases hicf
      · intro _
        refine ⟨fun _ => by rw [hdo], fun e2 he2 => ?_⟩
        rw [hro] at he2
        cases he2
    · have hdo : CacheM.Do env c s t req =
          ⟨.ok (e.asHttpResponse req), s1, t, [.getOp (c.key req)]⟩ := by
        unfold CacheM.Do
        simp [hm, hicf, hro]
      refine ⟨?_, ?_, ?_, ?_⟩
      · rw [hdo]
      · rw [hdo]
        rfl
      · intro h
        rw [h] at hicf
        cases hicf
      · intro _
        refine ⟨fun hnone => ?_, fun e2 he2 => ?_⟩
        · rw [hro] at hnone
          cases hnone
        · rw [hro] at he2
          cases he2
          rw [hdo]
    · have hdo : CacheM.Do env c s t req =
          ⟨.ok (e.asHttpResponse req), s1, t, [.getOp (c.key req)]⟩ := by
        unfold CacheM.Do
        simp [hm, hicf, hro, CacheM.afterRead, hoc]
      refine ⟨?_, ?_, ?_, ?_⟩
      · rw [hdo]
      · rw [hdo]
        rfl
      · intro h
        rw [h] at hicf
        cases hicf
      · intro _
        refine ⟨fun hnone => ?_, fun e2 he2 => ?_⟩
        · rw [hro] at hnone
          cases hnone
        · rw [hro] at he2
          cases he2
          rw [hdo]
    · have hdo : CacheM.Do env c s t req =
          ⟨.ok (e.asHttpResponse req), s1, t, [.getOp (c.key req)]⟩ := by
        unfold CacheM.Do
        simp [hm, hicf, hro]
      refine ⟨?_, ?_, ?_, ?_⟩
      · rw [hdo]
      · rw [hdo]
        rfl
      · intro h
        rw [h] at hicf
        cases hicf
      · intro _
        refine ⟨fun hnone => ?_, fun e2 he2 => ?_⟩
        · rw [hro] at hnone
          cases hnone
        · rw [hro] at he2
          cases he2
          rw [hdo]

/-- Witness for C4: on an empty store with `onlyCached` set the call
returns `ErrCacheMiss`, leaves the transport untouched and dispatches
nothing. -/
theorem only_cached_never_fetches_witness :
    (CacheM.Do envW (cacheW (constProv []) (transOf respOkW)) 0 0
      (reqW ⟨false, false, true⟩)).client = 0 ∧
    sends (CacheM.Do envW (cacheW (constProv []) (transOf respOkW)) 0 0
      (reqW ⟨false, false, true⟩)).evs = [] ∧
    (CacheM.Do envW (cacheW (constProv []) (transOf respOkW)) 0 0
      (reqW ⟨false, false, true⟩)).result = .error .cacheMiss := by
  have h := only_cached_never_fetches envW (cacheW (constProv []) (transOf respOkW))
    0 0 (reqW ⟨false, false, true⟩) rfl rfl (fun _ => ⟨[], 1, rfl⟩)
  exact ⟨h.1, h.2.1, (h.2.2.2 rfl).1 rfl⟩

/-- C8: when an expired entry is carried forward into the fetch and its
`ETag` value is non-empty, the one dispatched request is the original
request with `If-None-Match` set to exactly that value; with no `ETag`
(or an empty one) the dispatched request is the original, untouched. -/
theorem etag_sets_if_none_match (env : Env) {σ τ : Type}
    (c : CacheM σ τ) (s s1 : σ) (t : τ) (req : Request) (v : Bytes)
    (e : CacheEntry)
    (hm : req.method = "GET")
    (hie : req.ctx.ignoreExpired = false)
    (hic : req.ctx.ignoreCache = false)
    (hoc : req.ctx.onlyCached = false)
    (hget : c.provider.get s (c.key req) = .ok (v, s1))
    (hne : v ≠ []) (hun : env.unmarshal v = some e)
    (hexp : e.expired env = true) :
    (∀ etag, lookupHeader e.Headers "ETag" = some etag → etag ≠ "" →
      sends (CacheM.Do env c s t req).evs =
        [{ req with header := setHeader req.header "If-None-Match" etag }] ∧
      lookupHeader (setHeader req.header "If-None-Match" etag) "If-None-Match" =
        some etag) ∧
    ((lookupHeader e.Headers "ETag" = none ∨
        lookupHeader e.Headers "ETag" = some "") →
      sends (CacheM.Do env c s t req).evs = [req]) := by
  have hro := read_expired env c s s1 req.ctx (c.key req) v e hget hne hun hexp hie
  have hfp := sends_fetchPhase env c s1 t req (c.key req) (some e)
  simp only [sends] at hfp
  have hsends : sends (CacheM.Do env c s t req).evs = [condRequest req (some e)] := by
    unfold CacheM.Do
    simp [hm, hic, hro, CacheM.afterRead, hoc, sends_append, sends, hfp]
  constructor
  · intro etag hetag hne2
    refine ⟨?_, lookup_setHeader_self _ _ _⟩
    rw [hsends]
    simp [condRequest, hetag, hne2]
  · intro h
    rw [hsends]
    rcases h with h | h <;> simp [condRequest, h]

/-- Witness for C8: after storing the expired sample entry (ETag
`"123456789"`-style value `"e1"`), the revalidation request carries
`If-None-Match` with exactly the stored value. -/
theorem etag_sets_if_none_match_witness :
    sends (CacheM.Do envW (cacheW (constProv [2]) (transOf respOkW)) 0 0
      (reqW Ctx.none)).evs =
      [{ reqW Ctx.none with
          header := setHeader (reqW Ctx.none).header "If-None-Match" "\"e1\"" }] ∧
    lookupHeader (setHeader (reqW Ctx.none).header "If-None-Match" "\"e1\"")
      "If-None-Match" = some "\"e1\"" :=
  (etag_sets_if_none_match envW (cacheW (constProv [2]) (transOf respOkW)) 0 1 0
    (reqW Ctx.none) [2] entryExpW rfl rfl rfl rfl rfl (by decide) rfl rfl).1
    "\"e1\"" rfl (by decide)

/-- C2 (amended): with `ignoreCache` set and `onlyCached` not set, the
call skips the storage read (no provider `Get` appears in the trace) and
performs exactly one transport dispatch of the unmodified request,
regardless of what the store holds; when that dispatch succeeds with a
non-304 status, the fetched response is written back to storage. -/
theorem ignore_cache_forces_fetch (env : Env) {σ τ : Type}
    (c : CacheM σ τ) (s : σ) (t : τ) (req : Request)
    (hm : req.method = "GET")
    (hic : req.ctx.ignoreCache = true)
    (hoc : req.ctx.onlyCached = false) :
    hasGet (CacheM.Do env c s t req).evs = false ∧
    sends (CacheM.Do env c s t req).evs = [req] ∧
    ∀ resp t1, c.httpClient.doReq t req = .ok (resp, t1) →
      resp.statusCode ≠ 304 →
      Ev.setOp (c.key req) (env.marshal (entryOfResponse env resp)) 0 ∈
        (CacheM.Do env c s t req).evs := by
  have hdo : CacheM.Do env c s t req =
      CacheM.fetchPhase env c s t req (c.key req) none := by
    unfold CacheM.Do
    simp [hm, hic, CacheM.afterRead, hoc]
  obtain ⟨setEvs, hevs, hset⟩ := fetchPhase_evs env c s t req (c.key req) none
  refine ⟨?_, ?_, ?_⟩
  · rw [hdo, hevs]
    have h0 := hasGet_setOps setEvs hset
    simpa [hasGet, List.any_cons] using h0
  · rw [hdo]
    have h0 := sends_fetchPhase env c s t req (c.key req) none
    simpa [condRequest] using h0
  · intro resp t1 hsend h304
    rw [hdo]
    simp only [CacheM.fetchPhase, condRequest, hsend]
    rw [if_neg h304]
    rcases hs : CacheM.store env c s (c.key req) resp with ⟨res, evs⟩
    have hevs2 : evs = [.setOp (c.key req) (env.marshal (entryOfResponse env resp)) 0] := by
      have := store_evs env c s (c.key req) resp
      rw [hs] at this
      exact this
    rcases res with err | p <;>
      simp [hevs2]

/-- Witness for C2 (amended) at the concrete sample: the read is skipped,
the request is dispatched exactly once, and the fetched 200 response is
written back. -/
theorem ignore_cache_forces_fetch_witness :
    hasGet (CacheM.Do envW (cacheW (constProv [1]) (transOf respOkW)) 0 0
      (reqW ⟨false, true, false⟩)).evs = false ∧
    sends (CacheM.Do envW (cacheW (constProv [1]) (transOf respOkW)) 0 0
      (reqW ⟨false, true, false⟩)).evs = [reqW ⟨false, true, false⟩] ∧
    Ev.setOp "http://example.com/" (envW.marshal (entryOfResponse envW respOkW)) 0 ∈
      (CacheM.Do envW (cacheW (constProv [1]) (transOf respOkW)) 0 0
        (reqW ⟨false, true, false⟩)).evs := by
  have h := ignore_cache_forces_fetch envW (cacheW (constProv [1]) (transOf respOkW))
    0 0 (reqW ⟨false, true, false⟩) rfl rfl rfl
  exact ⟨h.1, h.2.1, h.2.2 respOkW 1 rfl (by decide)⟩

/-- Counterexample to C2 as frozen: a GET whose context sets `ignoreCache`
together with `onlyCached` performs zero transport dispatches (empty
trace) and returns `ErrCacheMiss`, not exactly one dispatch with a
write-back. -/
theorem ignore_cache_forces_fetch_cex :
    (reqW ⟨false, true, true⟩).ctx.ignoreCache = true ∧
    (reqW ⟨false, true, true⟩).method = "GET" ∧
    CacheM.Do envW (cacheW (constProv [1]) (transOf respOkW)) 0 0
      (reqW ⟨false, true, true⟩) = ⟨.error .cacheMiss, 0, 0, []⟩ :=
  ⟨rfl, rfl, rfl⟩

theorem fetchPhase_304 (env : Env) {σ τ : Type} (c : CacheM σ τ) (s : σ)
    (t : τ) (req : Request) (key : String) (e : CacheEntry)
    (resp : Response) (t1 : τ)
    (hsend : c.httpClient.doReq t (condRequest req (some e)) = .ok (resp, t1))
    (h304 : resp.statusCode = 304) :
    ∃ r2, (CacheM.fetchPhase env c s t req key (some e)).result = .ok r2 ∧
      r2.statusCode = resp.statusCode ∧
      r2.body = e.Data ∧
      (∀ x, lookupHeader e.Headers "Expires" = some x →
        lookupHeader r2.header "Expires" = some x) ∧
      (∀ x, lookupHeader e.Headers "Last-Modified" = some x →
        lookupHeader r2.header "Last-Modified" = some x) := by
  simp only [CacheM.fetchPhase]
  rw [hsend]
  dsimp only
  rw [if_pos h304]
  rcases hex : lookupHeader e.Headers "Expires" with _ | xv <;>
    rcases hlm : lookupHeader e.Headers "Last-Modified" with _ | lmv <;>
      dsimp only
  · refine ⟨_, rfl, rfl, rfl, fun x hx => ?_, fun x hx => ?_⟩
    · cases hx
    · cases hx
  · refine ⟨_, rfl, rfl, rfl, fun x hx => ?_, fun x hx => ?_⟩
    · cases hx
    · cases hx
      exact lookup_setHeader_self _ _ _
  · refine ⟨_, rfl, rfl, rfl, fun x hx => ?_, fun x hx => ?_⟩
    · cases hx
      exact lookup_setHeader_self _ _ _
    · cases hx
  · refine ⟨_, rfl, rfl, rfl, fun x hx => ?_, fun x hx => ?_⟩
    · cases hx
      rw [lookup_setHeader_other _ _ _ _ (by decide)]
      exact lookup_setHeader_self _ _ _
    · cases hx
      exact lookup_setHeader_self _ _ _

/-- C3: when the transport answers 304 (not modified) — if nothing was
previously obtained (a storage miss) the call fails with
`errors.New("no cached entry to return")`; if an expired entry was
carried forward, the call returns a response with status 304, body
exactly the entry's stored bytes, and the entry's `Expires` and
`Last-Modified` header values on the response, overwriting whatever the
transport supplied. -/
theorem not_modified_reconciliation (env : Env) {σ τ : Type}
    (c : CacheM σ τ) (s : σ) (t : τ) (req : Request)
    (hm : req.method = "GET")
    (hic : req.ctx.ignoreCache = false)
    (hoc : req.ctx.onlyCached = false) :
    (∀ s1 resp t1,
      c.provider.get s (c.key req) = .ok ([], s1) →
      c.httpClient.doReq t req = .ok (resp, t1) →
      resp.statusCode = 304 →
      (CacheM.Do env c s t req).result =
        .error (.errStr "no cached entry to return")) ∧
    (∀ v s1 e resp t1,
      req.ctx.ignoreExpired = false →
      c.provider.get s (c.key req) = .ok (v, s1) → v ≠ [] →
      env.unmarshal v = some e → e.expired env = true →
      c.httpClient.doReq t (condRequest req (some e)) = .ok (resp, t1) →
      resp.statusCode = 304 →
      ∃ r2, (CacheM.Do env c s t req).result = .ok r2 ∧
        r2.statusCode = 304 ∧
        r2.body = e.Data ∧
        (∀ x, lookupHeader e.Headers "Expires" = some x →
          lookupHeader r2.header "Expires" = some x) ∧
        (∀ x, lookupHeader e.Headers "Last-Modified" = some x →
          lookupHeader r2.header "Last-Modified" = some x)) := by
  constructor
  · intro s1 resp t1 hget hsend h304
    have hro := read_absent env c s s1 req.ctx (c.key req) hget
    have hfp : (CacheM.fetchPhase env c s1 t req (c.key req) none).result =
        .error (.errStr "no cached entry to return") := by
      simp only [CacheM.fetchPhase, condRequest]
      rw [hsend]
      dsimp only
      rw [if_pos h304]
    unfold CacheM.Do
    simp [hm, hic, hro, CacheM.afterRead, hoc, hfp]
  · intro v s1 e resp t1 hie hget hne hun hexp hsend h304
    have hro := read_expired env c s s1 req.ctx (c.key req) v e hget hne hun hexp hie
    obtain ⟨r2, hfp, hst, hbody, hexpr, hlmr⟩ :=
      fetchPhase_304 env c s1 t req (c.key req) e resp t1 hsend h304
    refine ⟨r2, ?_, by rw [hst, h304], hbody, hexpr, hlmr⟩
    unfold CacheM.Do
    simp [hm, hic, hro, CacheM.afterRead, hoc, hfp]

/-- Witness for C3: against the expired sample entry a 304 answer yields
a 304 response whose body is the stored `[72, 105]` and whose `Expires`
is the entry's `T10`, not the transport's `srv`. -/
theorem not_modified_reconciliation_witness :
    ∃ r2, (CacheM.Do envW (cacheW (constProv [2]) (transOf resp304W)) 0 0
        (reqW Ctx.none)).result = .ok r2 ∧
      r2.statusCode = 304 ∧
      r2.body = entryExpW.Data ∧
      (∀ x, lookupHeader entryExpW.Headers "Expires" = some x →
        lookupHeader r2.header "Expires" = some x) ∧
      (∀ x, lookupHeader entryExpW.Headers "Last-Modified" = some x →
        lookupHeader r2.header "Last-Modified" = some x) :=
  (not_modified_reconciliation envW (cacheW (constProv [2]) (transOf resp304W))
    0 0 (reqW Ctx.none) rfl rfl rfl).2 [2] 1 entryExpW resp304W 1 rfl rfl
    (by decide) rfl rfl rfl rfl

/-- C6 (amended): on every fetch path, when the dispatch succeeds with a
non-304 status and the write inside `store` fails, the fetched response
is discarded and the wrapped write error is returned; when the dispatch
yields 304, a failure of the re-persist write is only logged — the call
still returns the reconstructed response and leaves the provider state
as it was. -/
theorem write_failure_after_fetch (env : Env) {σ τ : Type}
    (c : CacheM σ τ) (s : σ) (t : τ) (req : Request) (key : String)
    (entry : Option CacheEntry) (resp : Response) (t1 : τ) (m : String)
    (hsend : c.httpClient.doReq t (condRequest req entry) = .ok (resp, t1)) :
    (resp.statusCode ≠ 304 →
      c.provider.set s key (env.marshal (entryOfResponse env resp)) 0 = .error m →
      CacheM.fetchPhase env c s t req key entry =
        ⟨.error (.wrapped "r.store(): " (.wrapped "r.write(): "
            (.wrapped "provider.Set(): " (.errStr m)))), s, t1,
          [.sendOp (condRequest req entry),
            .setOp key (env.marshal (entryOfResponse env resp)) 0]⟩) ∧
    (∀ e, entry = some e → resp.statusCode = 304 →
      c.provider.set s key (env.marshal e) 0 = .error m →
      ∃ r2, (CacheM.fetchPhase env c s t req key entry).result = .ok r2 ∧
        (CacheM.fetchPhase env c s t req key entry).prov = s ∧
        r2.body = e.Data) := by
  constructor
  · intro h304 hset
    simp only [CacheM.fetchPhase]
    rw [hsend]
    dsimp only
    rw [if_neg h304]
    simp only [CacheM.store, CacheM.write]
    rw [hset]
  · intro e he h304 hset
    subst he
    simp only [CacheM.fetchPhase]
    rw [hsend]
    dsimp only
    rw [if_pos h304]
    dsimp only
    simp only [CacheM.write]
    rw [hset]
    rcases lookupHeader e.Headers "Expires" with _ | xv <;>
      rcases lookupHeader e.Headers "Last-Modified" with _ | lmv <;>
        exact ⟨_, rfl, rfl, rfl⟩

/-- Witness for C6 (amended), both branches at concrete inputs: a 200
fetch over a failing `Set` surfaces the wrapped write error; a 304 over a
failing `Set` still returns the stored body. -/
theorem write_failure_after_fetch_witness :
    CacheM.fetchPhase envW (cacheW (failSetProv []) (transOf respOkW)) 0 0
      (reqW Ctx.none) "http://example.com/" none =
      ⟨.error (.wrapped "r.store(): " (.wrapped "r.write(): "
          (.wrapped "provider.Set(): " (.errStr "set failed")))), 0, 1,
        [.sendOp (reqW Ctx.none),
          .setOp "http://example.com/" (envW.marshal (entryOfResponse envW respOkW)) 0]⟩ ∧
    (∃ r2, (CacheM.fetchPhase envW (cacheW (failSetProv [2]) (transOf resp304W)) 0 0
        (reqW Ctx.none) "http://example.com/" (some entryExpW)).result = .ok r2 ∧
      (CacheM.fetchPhase envW (cacheW (failSetProv [2]) (transOf resp304W)) 0 0
        (reqW Ctx.none) "http://example.com/" (some entryExpW)).prov = 0 ∧
      r2.body = entryExpW.Data) := by
  constructor
  · exact (write_failure_after_fetch envW (cacheW (failSetProv []) (transOf respOkW))
      0 0 (reqW Ctx.none) "http://example.com/" none respOkW 1 "set failed" rfl).1
      (by decide) rfl
  · exact (write_failure_after_fetch envW (cacheW (failSetProv [2]) (transOf resp304W))
      0 0 (reqW Ctx.none) "http://example.com/" (some entryExpW) resp304W 1
      "set failed" rfl).2 entryExpW rfl rfl rfl

/-- Counterexample to C6 as frozen: a full `Do` run in which the
re-persist write after a 304 revalidation fails (`Set` always errors, and
the attempt is in the trace), yet the caller receives a successful
response — the write failure is not surfaced. -/
theorem write_failure_after_fetch_cex :
    CacheM.Do envW (cacheW (failSetProv [2]) (transOf resp304W)) 0 0 (reqW Ctx.none) =
      ⟨.ok ⟨304, [("Expires", "T10"), ("Other", "y")], [72, 105], 0, none⟩, 1, 1,
        [.getOp "http://example.com/",
          .sendOp ⟨"GET", "http://example.com/", [("If-None-Match", "\"e1\"")], Ctx.none⟩,
          .setOp "http://example.com/" [2] 0]⟩ ∧
    (failSetProv [2]).set 1 "http://example.com/" [2] 0 = .error "set failed" := by
  constructor
  · rfl
  · rfl

theorem afterRead_ttl (env : Env) {σ τ : Type} (c : CacheM σ τ) (s : σ)
    (t : τ) (req : Request) (key : String) (entry : Option CacheEntry)
    (k : String) (v : Bytes) (ttl : Nat)
    (hmem : Ev.setOp k v ttl ∈ (CacheM.afterRead env c s t req key entry).evs) :
    ttl = 0 := by
  unfold CacheM.afterRead at hmem
  split at hmem
  · split at hmem <;> cases hmem
  · obtain ⟨setEvs, hevs, hset⟩ := fetchPhase_evs env c s t req key entry
    rw [hevs] at hmem
    rcases List.mem_cons.mp hmem with h | h
    · cases h
    · exact ttl_setOps setEvs hset k v ttl h

theorem do_ttl_zero (env : Env) {σ τ : Type} (c : CacheM σ τ) (s : σ)
    (t : τ) (req : Request) (k : String) (v : Bytes) (ttl : Nat)
    (hmem : Ev.setOp k v ttl ∈ (CacheM.Do env c s t req).evs) : ttl = 0 := by
  unfold CacheM.Do at hmem
  split at hmem
  · split at hmem <;> simp_all
  · split at hmem
    · exact afterRead_ttl env c s t req (c.key req) none k v ttl hmem
    · rcases hro : CacheM.read env c s req.ctx (c.key req) with ⟨oentry, oerr, sp, evs⟩
      have hevs : evs = [Ev.getOp (c.key req)] := by
        have h0 := read_evs env c s req.ctx (c.key req)
        rw [hro] at h0
        exact h0
      dsimp only at hmem
      rw [hro] at hmem
      subst hevs
      rcases oerr with _ | g
      · rcases oentry with _ | e
        · dsimp only at hmem
          rcases List.mem_append.mp hmem with h | h
          · simp at h
          · exact afterRead_ttl env c sp t req (c.key req) none k v ttl h
        · simp at hmem
      · rcases g with m | _ | _ | _ | ⟨lab, inner⟩
        · simp at hmem
        · dsimp only at hmem
          rcases List.mem_append.mp hmem with h | h
          · simp at h
          · exact afterRead_ttl env c sp t req (c.key req) oentry k v ttl h
        · rcases oentry with _ | e <;> simp at hmem
        · simp at hmem
        · simp at hmem

/-- C10: every storage write the engine performs — the store after a full
fetch as well as the re-persist after a 304 — hands `Provider.Set` a TTL
hint of exactly zero; and a provider `Get` answering with zero-length
bytes is treated identically to absence: no entry, no error. -/
theorem ttl_zero_and_empty_get_is_miss (env : Env) {σ τ : Type}
    (c : CacheM σ τ) (s : σ) (t : τ) (req : Request) :
    (∀ k v ttl, Ev.setOp k v ttl ∈ (CacheM.Do env c s t req).evs → ttl = 0) ∧
    (∀ ctx key s1, c.provider.get s key = .ok ([], s1) →
      CacheM.read env c s ctx key = ⟨none, none, s1, [.getOp key]⟩) := by
  constructor
  · intro k v ttl hmem
    exact do_ttl_zero env c s t req k v ttl hmem
  · intro ctx key s1 hget
    exact read_absent env c s s1 ctx key hget

/-- Witness for C10: a concrete run whose trace contains a `Set` (with
hint 0), and a concrete empty-bytes `Get` read as a miss. -/
theorem ttl_zero_and_empty_get_is_miss_witness :
    Ev.setOp "http://example.com/" [1] 0 ∈
      (CacheM.Do envW (cacheW (constProv [9]) (transOf respOkW)) 0 0
        (reqW Ctx.none)).evs ∧
    (0 : Nat) = 0 ∧
    CacheM.read envW (cacheW (constProv []) (transOf respOkW)) 0 Ctx.none
      "http://example.com/" = ⟨none, none, 1, [.getOp "http://example.com/"]⟩ := by
  have h := ttl_zero_and_empty_get_is_miss envW
    (cacheW (constProv [9]) (transOf respOkW)) 0 0 (reqW Ctx.none)
  have h2 := ttl_zero_and_empty_get_is_miss envW
    (cacheW (constProv []) (transOf respOkW)) 0 0 (reqW Ctx.none)
  refine ⟨by decide, ?_, h2.2 Ctx.none "http://example.com/" 1 rfl⟩
  exact h.1 "http://example.com/" [1] 0 (by decide)

end LsmouraCache
